import Mathlib

/-!
Verification of the gene-model ETL in `hailtable-etl/prepare_gene_models.py`.

The pipeline is a declarative batch transformation expressed over the Hail
dataframe runtime (an external collaborator).  We embed it shallowly:
Hail arrays become `List`, Hail sets become `Finset` (or list membership),
missing values become `Option`, and each fallible expression
(`hl.int` on a malformed chromosome label) returns `Option`.
Keyed Hail tables are modelled as association lists `List (String × γ)`
ordered by key; `table[key]` becomes `lookupKey`.
-/

namespace GeneModels

/-! ## Coordinate mapper (`xpos`, prepare_gene_models.py lines 8-16) -/

/-- Accumulating decimal parse of a digit list, `none` on any non-digit. -/
def parseNatAux : List Char → Nat → Option Nat
  | [], acc => some acc
  | ch :: rest, acc =>
    if '0' ≤ ch ∧ ch ≤ '9'
    then parseNatAux rest (acc * 10 + (ch.toNat - '0'.toNat))
    else none

/-- Embeds `hl.int(s)`: parse an optionally negated run of decimal digits,
failing (`none`) on an empty string, a bare sign, or any other character. -/
def parseIntLabel (s : String) : Option Int :=
  match s.data with
  | [] => none
  | '-' :: rest =>
    match rest with
    | [] => none
    | _ => (parseNatAux rest 0).map (fun n => -(n : Int))
  | l => (parseNatAux l 0).map (fun n => (n : Int))

/-- Embeds the `hl.case()` chain inside `xpos`:
`when(contig_str == "X", 23).when(contig_str == "Y", 24).when(contig_str[0] == "M", 25)
.default(hl.int(contig_str))`.  `contig_str[0] == "M"` tests the first character
(a failing index on the empty string, like an unparseable default, is collapsed
into the `none` outcome: both abort the run). -/
def contigNumber (contig_str : String) : Option Int :=
  if contig_str = "X" then some 23
  else if contig_str = "Y" then some 24
  else if contig_str.data.head? = some 'M' then some 25
  else parseIntLabel contig_str

/-- Embeds `xpos` (lines 8-16): `hl.int64(contig_number) * 1_000_000_000 + position`.
`none` models the fatal InvalidChromosome failure. -/
def xpos (contig_str : String) (position : Int) : Option Int :=
  (contigNumber contig_str).map (fun n => n * 1000000000 + position)

/-- The chromosome labels named by the spec: autosomes 1..22, X, Y, M. -/
def chromLabels : List String :=
  ["1", "2", "3", "4", "5", "6", "7", "8", "9", "10", "11", "12", "13", "14",
   "15", "16", "17", "18", "19", "20", "21", "22", "X", "Y", "M"]

/-- The ordinal the spec assigns to each chromosome label (autosomes by number,
X to 23, Y to 24, M to 25); stated from the spec's words for comparison with
the code's `contigNumber`. -/
def claimOrdinal (c : String) : Int :=
  if c = "X" then 23
  else if c = "Y" then 24
  else if c = "M" then 25
  else (parseIntLabel c).getD 0

/-! ## Exon rows and the interval merger -/

/-- One collected exon-like row, as selected by `get_exons` (lines 24-35):
feature type (exon / CDS / UTR), version-stripped transcript and gene ids,
chromosome, strand and the closed interval `[start, stop]`. -/
structure ExonRow where
  feature_type : String
  transcript_id : String
  gene_id : String
  chrom : String
  strand : String
  start : Int
  stop : Int
deriving DecidableEq, Repr

/-- The shape produced by the final `exon.select("feature_type", "start", "stop",
xstart=..., xstop=...)` in `collect_gene_exons` / `collect_transcript_exons`. -/
structure AnnotatedExon where
  feature_type : String
  start : Int
  stop : Int
  xstart : Option Int
  xstop : Option Int
deriving DecidableEq, Repr

/-- The `select` projection with global coordinates from `xpos`. -/
def annotateExon (e : ExonRow) : AnnotatedExon :=
  { feature_type := e.feature_type, start := e.start, stop := e.stop,
    xstart := xpos e.chrom e.start, xstop := xpos e.chrom e.stop }

/-- Stable insertion into a start-sorted list (a new row goes in front of the
first row whose start is not smaller). -/
def insertByStart (e : ExonRow) : List ExonRow → List ExonRow
  | [] => [e]
  | f :: fs => if e.start ≤ f.start then e :: f :: fs else f :: insertByStart e fs

/-- Stable sort of exon rows by start ascending. -/
def sortByStart : List ExonRow → List ExonRow
  | [] => []
  | e :: es => insertByStart e (sortByStart es)

/-- Left-to-right scan keeping one open interval: a row starting at or before
`cur.stop + 1` extends the open interval to the larger stop, any other row
closes it and opens a new one. -/
def mergeScan (cur : ExonRow) : List ExonRow → List ExonRow
  | [] => [cur]
  | e :: es =>
    if e.start ≤ cur.stop + 1 then mergeScan { cur with stop := max cur.stop e.stop } es
    else cur :: mergeScan e es

/-- Modelled from the spec: `merge_overlapping_regions` is imported from
`data_utils.regions`, a module of this repository that is not among the two
source files.  Section 4.2 of the design gives its algorithm: stable-sort by
start ascending, then scan left to right maintaining a current open interval,
extending it while the next interval's start is at most current stop + 1
(closed intervals, adjacency merges), otherwise closing it; each emitted
interval keeps the remaining fields of the first row of its run; empty input
yields empty output. -/
def merge_overlapping_regions (regions : List ExonRow) : List ExonRow :=
  match sortByStart regions with
  | [] => []
  | e :: es => mergeScan e es

/-! ## Exon aggregation (lines 59-78 and 104-112) -/

/-- Embeds `collect_transcript_exons` (lines 104-112): if any child row is a
CDS or UTR the plain `exon` rows are filtered out, otherwise the rows are kept
unchanged; either way each surviving row is projected with global coordinates.
No interval merging happens here. -/
def collect_transcript_exons (transcript_exons : List ExonRow) : List AnnotatedExon :=
  let is_coding := transcript_exons.any
    (fun e => e.feature_type = "CDS" ∨ e.feature_type = "UTR")
  let exons := if is_coding
    then transcript_exons.filter (fun e => e.feature_type ≠ "exon")
    else transcript_exons
  exons.map annotateExon

/-- Embeds `collect_gene_exons` (lines 59-78): the transcript ids owning a CDS
or UTR row form a set; rows of those transcripts are excluded from the
non-coding pass; the result is `merge(CDS rows) ++ merge(UTR rows) ++
merge(rows of non-coding transcripts)`, each row then projected with global
coordinates. -/
def collect_gene_exons (gene_exons : List ExonRow) : List AnnotatedExon :=
  let coding_transcripts :=
    (gene_exons.filter (fun e => e.feature_type = "CDS" ∨ e.feature_type = "UTR")).map
      (fun e => e.transcript_id)
  let non_coding_transcript_exons :=
    gene_exons.filter (fun e => ¬ e.transcript_id ∈ coding_transcripts)
  let exons :=
    ((merge_overlapping_regions
        (gene_exons.filter (fun e => e.feature_type = "CDS"))).append
      (merge_overlapping_regions
        (gene_exons.filter (fun e => e.feature_type = "UTR")))).append
      (merge_overlapping_regions non_coding_transcript_exons)
  exons.map annotateExon

/-! ## Transcript records and attachment to genes (lines 86-138) -/

/-- One transcript row as selected by `get_transcripts` (lines 86-101). -/
structure Transcript where
  transcript_id : String
  transcript_version : String
  gene_id : String
  chrom : String
  strand : String
  start : Int
  stop : Int
  xstart : Option Int
  xstop : Option Int
deriving DecidableEq, Repr

/-- Lexicographic comparison of character lists, the order of string table
keys. -/
def charListLe : List Char → List Char → Bool
  | [], _ => true
  | _ :: _, [] => false
  | a :: as, b :: bs =>
    if a < b then true
    else if b < a then false
    else charListLe as bs

/-- Lexicographic string order (on the underlying characters). -/
def keyLe (a b : String) : Bool :=
  charListLe a.data b.data

/-- The relation ordering transcript rows by their table key `transcript_id`. -/
def byTranscriptId (a b : Transcript) : Prop :=
  keyLe a.transcript_id b.transcript_id = true

instance : DecidableRel byTranscriptId := fun a b =>
  inferInstanceAs (Decidable (keyLe a.transcript_id b.transcript_id = true))

instance : IsTotal Transcript byTranscriptId := by
  constructor
  intro x y
  show charListLe x.transcript_id.data y.transcript_id.data = true ∨
    charListLe y.transcript_id.data x.transcript_id.data = true
  generalize x.transcript_id.data = as
  generalize y.transcript_id.data = bs
  induction as generalizing bs with
  | nil => left; rfl
  | cons a as ih =>
    cases bs with
    | nil => right; rfl
    | cons b bs =>
      by_cases hab : a < b
      · left; simp [charListLe, hab]
      · by_cases hba : b < a
        · right; simp [charListLe, hba]
        · rcases ih bs with h | h
          · left; simp [charListLe, hab, hba, h]
          · right; simp [charListLe, hab, hba, h]

instance : IsTrans Transcript byTranscriptId := by
  constructor
  intro x y z
  show charListLe x.transcript_id.data y.transcript_id.data = true →
    charListLe y.transcript_id.data z.transcript_id.data = true →
    charListLe x.transcript_id.data z.transcript_id.data = true
  generalize x.transcript_id.data = as
  generalize y.transcript_id.data = bs
  generalize z.transcript_id.data = cs
  induction as generalizing bs cs with
  | nil => intros; rfl
  | cons a as ih =>
    intro h1 h2
    cases bs with
    | nil => simp [charListLe] at h1
    | cons b bs =>
      cases cs with
      | nil => simp [charListLe] at h2
      | cons c cs =>
        by_cases hab : a < b
        · by_cases hbc : b < c
          · simp [charListLe, lt_trans hab hbc]
          · by_cases hcb : c < b
            · simp [charListLe, hbc, hcb] at h2
            · have hbceq : b = c := le_antisymm (not_lt.mp hcb) (not_lt.mp hbc)
              subst hbceq
              simp [charListLe, hab]
        · by_cases hba : b < a
          · simp [charListLe, hab, hba] at h1
          · have habeq : a = b := le_antisymm (not_lt.mp hba) (not_lt.mp hab)
            subst habeq
            simp only [charListLe, if_neg hab, if_neg hba] at h1
            by_cases hac : a < c
            · simp [charListLe, hac]
            · by_cases hca : c < a
              · simp [charListLe, hac, hca] at h2
              · simp only [charListLe, if_neg hac, if_neg hca] at h2 ⊢
                exact ih bs cs h1 h2

/-- Embeds the transcript attachment of `load_gencode_gene_models`
(lines 132-136): the transcripts table is keyed, hence ordered, by
`transcript_id`; `group_by(gene_id).aggregate(transcripts=hl.agg.collect(...))`
gathers each gene's transcript rows in that table order.  The code applies no
sorting by start position. -/
def geneTranscripts (transcripts : List Transcript) (g : String) : List Transcript :=
  (transcripts.insertionSort byTranscriptId).filter (fun t => t.gene_id = g)

/-! ## Keyed tables and the multi-version outer join (lines 156-171) -/

/-- Indexing a keyed table: `table[k]`, the value of the first row keyed `k`. -/
def lookupKey {γ : Type} (rows : List (String × γ)) (k : String) : Option γ :=
  (rows.find? (fun r => r.1 = k)).map (fun r => r.2)

/-- One step of the loop in `main` (lines 158-170): the accumulated table
(each gene id paired with one optional sub-record per version joined so far,
`n` of them) is outer-joined with the next version's table.  Genes already
present gain one more slot; genes only in the new version enter with `n`
null slots. -/
def outerJoinStep {γ : Type} (n : Nat) (acc : List (String × List (Option γ)))
    (next : List (String × γ)) : List (String × List (Option γ)) :=
  acc.map (fun r => (r.1, r.2 ++ [lookupKey next r.1]))
    ++ (next.filter (fun r => (lookupKey acc r.1).isNone)).map
        (fun r => (r.1, List.replicate n none ++ [some r.2]))

/-- The loop `for gencode_version, ... in args.gencode: ... genes.join(gencode_genes, "outer")`,
starting from no table (`genes = None`). -/
def multiOuterJoin {γ : Type} (acc : List (String × List (Option γ))) (n : Nat) :
    List (List (String × γ)) → List (String × List (Option γ))
  | [] => acc
  | t :: ts => multiOuterJoin (outerJoinStep n acc t) (n + 1) ts

/-- The whole multi-version reconciliation join over the configured version
tables, in configuration order. -/
def outerJoinAll {γ : Type} (tables : List (List (String × γ))) :
    List (String × List (Option γ)) :=
  multiOuterJoin [] 0 tables

/-! ## Symbol resolution (lines 193-202) -/

/-- The pair of fields threaded through the symbol-precedence loop. -/
structure SymbolState where
  symbol : Option String
  symbol_source : Option String
deriving DecidableEq, Repr

/-- One iteration of the loop at lines 195-202: both `annotate` fields are
computed against the incoming record, so `symbol = hl.or_else(old symbol,
version symbol)` and `symbol_source` switches to `"gencode (vX)"` exactly when
the old symbol was missing and version X supplies one. -/
def resolveSymbolStep (gencodeSymbol : String → Option String)
    (st : SymbolState) (version : String) : SymbolState :=
  { symbol := st.symbol.orElse (fun _ => gencodeSymbol version),
    symbol_source :=
      if st.symbol = none ∧ (gencodeSymbol version).isSome
      then some ("gencode (v" ++ version ++ ")")
      else st.symbol_source }

/-- Embeds lines 193-202: after the HGNC left join, `symbol` is the registry
symbol (or missing) and `symbol_source` is `"hgnc"` exactly when it is
defined (line 194); then the loop folds over the configured gencode versions
in their configured (ascending) order. -/
def resolveSymbol (hgncSymbol : Option String) (gencodeSymbol : String → Option String)
    (versions : List String) : SymbolState :=
  versions.foldl (resolveSymbolStep gencodeSymbol)
    { symbol := hgncSymbol,
      symbol_source := if hgncSymbol.isSome then some "hgnc" else none }

/-! ## Search terms (lines 183-192 and 204-220) -/

/-- The defined-field branch of the registry preprocessing at lines 183-192:
`hl.cond(x == "", hl.empty_array(tstr), x.split(",").map(strip))` applied to a
defined string.  Under `import_table(missing="")` (line 172) a defined
previous/alias field is never the empty string, so the empty branch is dead
code in the program; it is kept here as written. -/
def splitFieldParts (s : String) : List String :=
  if s = "" then [] else (s.splitOn ",").map (fun t => t.trim)

/-- The registry preprocessing on a possibly missing field: `x == ""` on a
missing value is missing, and `hl.cond` with a missing predicate is missing,
so a missing previous/alias field (empty in the registry file, or the gene
has no registry row at all) stays missing. -/
def splitField (s? : Option String) : Option (List String) :=
  s?.map splitFieldParts

/-- Hail's missingness-strict `array.append(item)` (line 207): a missing
receiver or a missing item yields a missing array. -/
def strictAppend (arr : Option (List String)) (x : Option String) :
    Option (List String) :=
  match arr, x with
  | some l, some s => some (l ++ [s])
  | _, _ => none

/-- Hail's missingness-strict `array.extend(other)` (lines 208-209): a missing
operand on either side yields a missing array. -/
def strictExtend (arr other : Option (List String)) : Option (List String) :=
  match arr, other with
  | some l, some m => some (l ++ m)
  | _, _ => none

/-- One iteration of the loop at lines 211-219:
`hl.rbind(version symbol, s => hl.cond(hl.is_defined(s), terms.append(s), terms))`.
`hl.is_defined` is itself never missing, so an undefined version symbol
returns the terms unchanged (missing stays missing), while a defined one is
appended strictly. -/
def appendDefined (terms : Option (List String)) (s? : Option String) :
    Option (List String) :=
  match s? with
  | some s => strictAppend terms (some s)
  | none => terms

/-- Embeds lines 204-220 end to end: the search-term array
`hl.empty_array(tstr).append(symbol).extend(previous_symbols).extend(alias_symbols)`,
one `appendDefined` per configured version, then `hl.set(terms.map(upper))`
(modelled as `Finset`), with Hail missingness propagated throughout: a
missing resolved symbol or a missing previous/alias registry field makes the
whole result missing (`none`). -/
def search_terms (symbol previousRaw aliasRaw : Option String)
    (versionSymbols : List (Option String)) : Option (Finset String) :=
  (versionSymbols.foldl appendDefined
      (strictExtend
        (strictExtend (strictAppend (some []) symbol) (splitField previousRaw))
        (splitField aliasRaw))).map
    (fun terms => (terms.map (fun s => s.toUpper)).toFinset)

/-! ## MANE Select cross-reference lookup (lines 221-264) -/

/-- The refseq payload stored in the two-level lookup (line 235-237). -/
structure RefseqStruct where
  refseq_id : String
  refseq_version : String
deriving DecidableEq, Repr

/-- One collected MANE Select row (lines 223-230). -/
structure ManeRow where
  gene_id : String
  matched_gene_version : String
  ensembl_id : String
  ensembl_version : String
  refseq_id : String
  refseq_version : String
deriving DecidableEq, Repr

/-- The two-level lookup: ensembl transcript accession to (ensembl version to
refseq struct); an association list models the python dict in insertion
order. -/
abbrev EnsemblMap : Type := List (String × List (String × RefseqStruct))

/-- Python dict assignment `d[k] = v`: replace the value of an existing key in
place, otherwise append the new binding. -/
def dictInsert {α : Type} (m : List (String × α)) (k : String) (v : α) :
    List (String × α) :=
  if (m.find? (fun p => p.1 = k)).isSome then
    m.map (fun p => if p.1 = k then (k, v) else p)
  else m ++ [(k, v)]

/-- Embeds the loop at lines 232-238: each collected row assigns
`ensembl_to_refseq_map[ensembl_id] = one-entry dict from ensembl_version`,
a whole-value overwrite. -/
def buildEnsemblToRefseqMap (rows : List ManeRow) : EnsemblMap :=
  rows.foldl
    (fun m r => dictInsert m r.ensembl_id
      [(r.ensembl_version,
        { refseq_id := r.refseq_id, refseq_version := r.refseq_version })])
    []

/-! ## Per-version cross-reference annotation (lines 241-264) -/

/-- A transcript record after the MANE annotation pass: the original fields
plus the two refseq fields added by `transcript.annotate`. -/
structure XrefTranscript where
  base : Transcript
  refseq_id : Option String
  refseq_version : Option String
deriving DecidableEq, Repr

/-- The inner `.get(transcript_version, hl.struct(refseq_id=null, refseq_version=null))`. -/
def getVersionFields (inner : List (String × RefseqStruct)) (ver : String) :
    Option String × Option String :=
  match lookupKey inner ver with
  | some r => (some r.refseq_id, some r.refseq_version)
  | none => (none, none)

/-- The chained `ensembl_to_refseq_map.get(transcript_id, empty dict).get(version, null struct)`
of lines 244-250. -/
def getRefseqFields (m : EnsemblMap) (id ver : String) : Option String × Option String :=
  match lookupKey m id with
  | some inner => getVersionFields inner ver
  | none => (none, none)

/-- The dispatch `if int(gencode_version) >= 20` at line 242, over the
hard-coded loop `for gencode_version in ["19", "29"]`. -/
def supportsRefseqXref (version : String) : Bool :=
  match parseIntLabel version with
  | some n => decide (n ≥ 20)
  | none => false

/-- Embeds the per-transcript annotation chosen at lines 241-255: versions
with `int(version) >= 20` consult the two-level lookup with a null-struct
fallback; older versions annotate both refseq fields as null without
consulting the lookup. -/
def annotateTranscriptXref (version : String) (m : EnsemblMap) (t : Transcript) :
    XrefTranscript :=
  if supportsRefseqXref version then
    { base := t,
      refseq_id := (getRefseqFields m t.transcript_id t.transcript_version).1,
      refseq_version := (getRefseqFields m t.transcript_id t.transcript_version).2 }
  else
    { base := t, refseq_id := none, refseq_version := none }

/-- A sample one-accession two-level lookup used in concrete examples. -/
def sampleEnsemblMap : EnsemblMap :=
  [("T1", [("1", { refseq_id := "NM_1", refseq_version := "2" })])]

/-- A sample transcript row whose (accession, version) is in
`sampleEnsemblMap`. -/
def sampleTranscriptHit : Transcript :=
  { transcript_id := "T1", transcript_version := "1", gene_id := "G1", chrom := "1",
    strand := "+", start := 1, stop := 2, xstart := none, xstop := none }

/-- A sample transcript row whose accession is not in `sampleEnsemblMap`. -/
def sampleTranscriptMiss : Transcript :=
  { transcript_id := "T9", transcript_version := "1", gene_id := "G1", chrom := "1",
    strand := "+", start := 1, stop := 2, xstart := none, xstop := none }

/-! ## Theorems -/

/-- A label begins with M exactly when the first character of its data is M. -/
lemma mprefix_iff (c : String) :
    (∃ r, c.data = 'M' :: r) ↔ c.data.head? = some 'M' := by
  constructor
  · rintro ⟨r, hr⟩
    rw [hr]
    rfl
  · intro h
    cases hc : c.data with
    | nil => rw [hc] at h; simp at h
    | cons a as =>
      rw [hc] at h
      simp at h
      subst h
      exact ⟨as, rfl⟩

/-- On each of the 25 spec chromosome labels the code's ordinal agrees with the
spec's ordinal assignment. -/
lemma contig_chromLabels : ∀ c ∈ chromLabels, contigNumber c = some (claimOrdinal c) := by
  decide

/-- C5: for every chromosome label and position, `xpos` returns
ordinal × 10^9 + position, where the ordinal is 23 for label "X", 24 for "Y",
25 for any label beginning with "M", and the numeric parse of the label
otherwise; it fails (InvalidChromosome, modelled as `none`) exactly when the
label is neither X, Y, M-prefixed, nor numeric. -/
theorem xpos_spec (c : String) (p : Int) :
    (xpos "X" p = some (23 * 1000000000 + p)) ∧
    (xpos "Y" p = some (24 * 1000000000 + p)) ∧
    ((∃ r, c.data = 'M' :: r) → xpos c p = some (25 * 1000000000 + p)) ∧
    (∀ n : Int, c ≠ "X" → c ≠ "Y" → (¬ ∃ r, c.data = 'M' :: r) →
      parseIntLabel c = some n → xpos c p = some (n * 1000000000 + p)) ∧
    (xpos c p = none ↔
      c ≠ "X" ∧ c ≠ "Y" ∧ (¬ ∃ r, c.data = 'M' :: r) ∧ parseIntLabel c = none) := by
  refine ⟨?_, ?_, ?_, ?_, ?_⟩
  · simp [xpos, (by decide : contigNumber "X" = some 23)]
  · simp [xpos, (by decide : contigNumber "Y" = some 24)]
  · intro hM
    rw [mprefix_iff] at hM
    have hX : c ≠ "X" := by rintro rfl; exact absurd hM (by decide)
    have hY : c ≠ "Y" := by rintro rfl; exact absurd hM (by decide)
    simp [xpos, contigNumber, hX, hY, hM]
  · intro n hX hY hM hn
    rw [mprefix_iff] at hM
    simp [xpos, contigNumber, hX, hY, hM, hn]
  · have hbase : (xpos c p = none) ↔ (contigNumber c = none) := by
      simp [xpos]
    rw [hbase, mprefix_iff]
    unfold contigNumber
    split_ifs with h1 h2 h3
    · simp [h1]
    · simp [h2]
    · simp [h3]
    · simp [h1, h2, h3]

/-- Witness for C5 at concrete labels: an M-prefixed label, a numeric label,
and a malformed label. -/
theorem xpos_spec_witness :
    xpos "MT" 7 = some (25 * 1000000000 + 7) ∧
    xpos "17" 3 = some (17 * 1000000000 + 3) ∧
    xpos "chr7" 1 = none :=
  ⟨(xpos_spec "MT" 7).2.2.1 ⟨['T'], by decide⟩,
   (xpos_spec "17" 3).2.2.2.1 17 (by decide) (by decide)
     (fun h => absurd ((mprefix_iff "17").mp h) (by decide)) (by decide),
   (xpos_spec "chr7" 1).2.2.2.2.mpr
     ⟨by decide, by decide,
      fun h => absurd ((mprefix_iff "chr7").mp h) (by decide), by decide⟩⟩

/-- C4: over the chromosome labels 1..22, X, Y, M and positions within a
chromosome (at most one billion bases), `xpos` is strictly increasing with
respect to the lexicographic order on (chromosome ordinal, position). -/
theorem xpos_strictly_increasing (c1 c2 : String)
    (hc1 : c1 ∈ chromLabels) (hc2 : c2 ∈ chromLabels) (p1 p2 : Int)
    (hp1l : 1 ≤ p1) (hp1u : p1 ≤ 1000000000)
    (hp2l : 1 ≤ p2) (hp2u : p2 ≤ 1000000000)
    (hlex : claimOrdinal c1 < claimOrdinal c2 ∨
      (claimOrdinal c1 = claimOrdinal c2 ∧ p1 < p2)) :
    ∃ x1 x2, xpos c1 p1 = some x1 ∧ xpos c2 p2 = some x2 ∧ x1 < x2 := by
  have h1 := contig_chromLabels c1 hc1
  have h2 := contig_chromLabels c2 hc2
  refine ⟨claimOrdinal c1 * 1000000000 + p1, claimOrdinal c2 * 1000000000 + p2,
    by simp [xpos, h1], by simp [xpos, h2], ?_⟩
  rcases hlex with hlt | ⟨heq, hplt⟩
  · have hstep : claimOrdinal c1 + 1 ≤ claimOrdinal c2 := hlt
    have hmul : (claimOrdinal c1 + 1) * 1000000000 ≤ claimOrdinal c2 * 1000000000 :=
      mul_le_mul_of_nonneg_right hstep (by norm_num)
    linarith
  · rw [heq]
    linarith

/-- Witness for C4 at the chromosome boundary: the last base of chromosome 22
against the first base of chromosome X. -/
theorem xpos_strictly_increasing_witness :
    ∃ x1 x2, xpos "22" 1000000000 = some x1 ∧ xpos "X" 1 = some x2 ∧ x1 < x2 :=
  xpos_strictly_increasing "22" "X" (by decide) (by decide) 1000000000 1
    (by norm_num) (by norm_num) (by norm_num) (by norm_num) (Or.inl (by decide))

/-- C1 counterexample: a transcript with two overlapping coding (CDS) children.
`collect_transcript_exons` keeps both rows as they came — overlapping, not
merged — so its output is not `merge(coding children)` and is not pairwise
non-overlapping. -/
theorem collect_transcript_exons_claim_cex :
    (collect_transcript_exons
        [{ feature_type := "CDS", transcript_id := "T1", gene_id := "G1", chrom := "1",
           strand := "+", start := 10, stop := 20 },
         { feature_type := "CDS", transcript_id := "T1", gene_id := "G1", chrom := "1",
           strand := "+", start := 15, stop := 30 }]).map (fun a => (a.start, a.stop)) =
      [(10, 20), (15, 30)] ∧
    collect_transcript_exons
        [{ feature_type := "CDS", transcript_id := "T1", gene_id := "G1", chrom := "1",
           strand := "+", start := 10, stop := 20 },
         { feature_type := "CDS", transcript_id := "T1", gene_id := "G1", chrom := "1",
           strand := "+", start := 15, stop := 30 }] ≠
      (merge_overlapping_regions
        ([{ feature_type := "CDS", transcript_id := "T1", gene_id := "G1", chrom := "1",
            strand := "+", start := 10, stop := 20 },
          { feature_type := "CDS", transcript_id := "T1", gene_id := "G1", chrom := "1",
            strand := "+", start := 15, stop := 30 }].filter
          (fun e => e.feature_type = "CDS" ∨ e.feature_type = "UTR"))).map annotateExon := by
  decide

/-- C1 (amended): for every transcript whose exon-like children all have
feature type exon, CDS or UTR, if at least one child is coding (CDS or UTR)
then `collect_transcript_exons` returns exactly the coding children — plain
exon rows discarded — in their input order, unmerged, each annotated with
global coordinates; with no coding child it returns all children unchanged,
likewise annotated.  No interval merging or reordering is performed at the
transcript level. -/
theorem collect_transcript_exons_amended (ts : List ExonRow)
    (h : ∀ e ∈ ts, e.feature_type = "exon" ∨ e.feature_type = "CDS" ∨ e.feature_type = "UTR") :
    collect_transcript_exons ts =
      if ∃ e ∈ ts, e.feature_type = "CDS" ∨ e.feature_type = "UTR"
      then (ts.filter (fun e => e.feature_type = "CDS" ∨ e.feature_type = "UTR")).map
        annotateExon
      else ts.map annotateExon := by
  by_cases hc : ∃ e ∈ ts, e.feature_type = "CDS" ∨ e.feature_type = "UTR"
  · rw [if_pos hc]
    have hany : ts.any (fun e => e.feature_type = "CDS" ∨ e.feature_type = "UTR") = true := by
      rw [List.any_eq_true]
      obtain ⟨e, he, hor⟩ := hc
      exact ⟨e, he, by simpa using hor⟩
    have hfe : ts.filter (fun e => e.feature_type ≠ "exon") =
        ts.filter (fun e => e.feature_type = "CDS" ∨ e.feature_type = "UTR") := by
      apply List.filter_congr
      intro e he
      rw [decide_eq_decide]
      rcases h e he with h1 | h2 | h3
      · simp [h1]
      · simp [h2]
      · simp [h3]
    simp only [collect_transcript_exons, hany, if_true, hfe]
  · rw [if_neg hc]
    have hany : ts.any (fun e => e.feature_type = "CDS" ∨ e.feature_type = "UTR") = false := by
      rw [List.any_eq_false]
      intro e he
      simpa using fun hor => hc ⟨e, he, hor⟩
    simp only [collect_transcript_exons, hany, Bool.false_eq_true, if_false]

/-- Witness for the amended C1: a coding transcript with one plain exon and
one CDS child keeps only the CDS child. -/
theorem collect_transcript_exons_amended_witness :
    collect_transcript_exons
        [{ feature_type := "exon", transcript_id := "T1", gene_id := "G1", chrom := "1",
           strand := "+", start := 10, stop := 30 },
         { feature_type := "CDS", transcript_id := "T1", gene_id := "G1", chrom := "1",
           strand := "+", start := 10, stop := 20 }] =
      [annotateExon
        { feature_type := "CDS", transcript_id := "T1", gene_id := "G1", chrom := "1",
          strand := "+", start := 10, stop := 20 }] := by
  rw [collect_transcript_exons_amended _ (by decide)]
  decide

/-- C2: for every gene, `collect_gene_exons` produces the concatenation (not
re-merged across tags) of three independently merged lists — the merge of the
gene's CDS rows, the merge of its UTR rows, and the merge of the exon-like
rows belonging only to transcripts with no CDS or UTR row anywhere among the
gene's children — each final interval annotated with global coordinates via
`xpos`. -/
theorem collect_gene_exons_spec (rows : List ExonRow) :
    collect_gene_exons rows =
      ((merge_overlapping_regions (rows.filter (fun e => e.feature_type = "CDS")))
        ++ (merge_overlapping_regions (rows.filter (fun e => e.feature_type = "UTR")))
        ++ (merge_overlapping_regions (rows.filter (fun e =>
              ∀ e2 ∈ rows, e2.transcript_id = e.transcript_id →
                ¬(e2.feature_type = "CDS" ∨ e2.feature_type = "UTR"))))).map
        annotateExon := by
  have hfil : rows.filter (fun e => ¬ e.transcript_id ∈
        (rows.filter (fun e => e.feature_type = "CDS" ∨ e.feature_type = "UTR")).map
          (fun e => e.transcript_id)) =
      rows.filter (fun e =>
        ∀ e2 ∈ rows, e2.transcript_id = e.transcript_id →
          ¬(e2.feature_type = "CDS" ∨ e2.feature_type = "UTR")) := by
    apply List.filter_congr
    intro e he
    rw [decide_eq_decide]
    simp only [List.mem_map, List.mem_filter, decide_eq_true_eq, not_exists]
    constructor
    · intro hnot e2 he2 htid hcod
      exact hnot e2 ⟨⟨he2, hcod⟩, htid⟩
    · rintro hall a ⟨⟨ha, hcod⟩, htid⟩
      exact hall a ha htid hcod
  simp only [collect_gene_exons, hfil, List.append_eq, List.append_assoc]

/-- C6 counterexample: two transcripts of one gene whose transcript-id order
disagrees with their start order.  The attached sequence comes out in table
(key) order "T1", "T2" — starts [500, 100] — not sorted ascending by start. -/
theorem gene_transcripts_claim_cex :
    ((geneTranscripts
        [{ transcript_id := "T1", transcript_version := "1", gene_id := "G1", chrom := "1",
           strand := "+", start := 500, stop := 600, xstart := none, xstop := none },
         { transcript_id := "T2", transcript_version := "1", gene_id := "G1", chrom := "1",
           strand := "+", start := 100, stop := 200, xstart := none, xstop := none }]
        "G1").map (fun t => t.start) = [500, 100]) ∧
    ¬ List.Sorted (· ≤ ·)
      ((geneTranscripts
        [{ transcript_id := "T1", transcript_version := "1", gene_id := "G1", chrom := "1",
           strand := "+", start := 500, stop := 600, xstart := none, xstop := none },
         { transcript_id := "T2", transcript_version := "1", gene_id := "G1", chrom := "1",
           strand := "+", start := 100, stop := 200, xstart := none, xstop := none }]
        "G1").map (fun t => t.start)) := by
  constructor
  · decide
  · intro hs
    rw [(by decide :
      (geneTranscripts
        [{ transcript_id := "T1", transcript_version := "1", gene_id := "G1", chrom := "1",
           strand := "+", start := 500, stop := 600, xstart := none, xstop := none },
         { transcript_id := "T2", transcript_version := "1", gene_id := "G1", chrom := "1",
           strand := "+", start := 100, stop := 200, xstart := none, xstop := none }]
        "G1").map (fun t => t.start) = [(500 : Int), 100])] at hs
    exact absurd ((List.sorted_cons.mp hs).1 100 (by simp)) (by norm_num)

/-- C6 (amended): the transcripts attached to a gene are collected in the
transcript table's key order — ascending `transcript_id` — not sorted by
start position, and the attached sequence contains exactly the transcripts
whose `gene_id` matches the gene. -/
theorem gene_transcripts_amended (ts : List Transcript) (g : String) :
    List.Pairwise byTranscriptId (geneTranscripts ts g) ∧
    ∀ t, t ∈ geneTranscripts ts g ↔ t ∈ ts ∧ t.gene_id = g := by
  constructor
  · have hsorted : List.Sorted byTranscriptId (ts.insertionSort byTranscriptId) :=
      List.sorted_insertionSort byTranscriptId ts
    exact List.Pairwise.sublist (List.filter_sublist _) hsorted
  · intro t
    constructor
    · intro ht
      obtain ⟨hmem, hg⟩ := List.mem_filter.mp ht
      exact ⟨(List.perm_insertionSort byTranscriptId ts).mem_iff.mp hmem, by simpa using hg⟩
    · rintro ⟨hmem, hg⟩
      exact List.mem_filter.mpr
        ⟨(List.perm_insertionSort byTranscriptId ts).mem_iff.mpr hmem, by simpa using hg⟩

/-- Any fully resolved symbol state passes through the remaining loop
iterations unchanged. -/
lemma resolveSymbol_foldl_some (gs : String → Option String) (vs : List String)
    (s : String) (src : Option String) :
    vs.foldl (resolveSymbolStep gs) { symbol := some s, symbol_source := src } =
      { symbol := some s, symbol_source := src } := by
  induction vs with
  | nil => rfl
  | cons v vs ih =>
    simp only [List.foldl_cons, resolveSymbolStep, Option.some_orElse]
    rw [if_neg (by simp)]
    exact ih

/-- Versions without a defined symbol leave the unresolved state unchanged. -/
lemma resolveSymbol_foldl_none (gs : String → Option String) (pre : List String)
    (h : ∀ u ∈ pre, gs u = none) :
    pre.foldl (resolveSymbolStep gs) { symbol := none, symbol_source := none } =
      { symbol := none, symbol_source := none } := by
  induction pre with
  | nil => rfl
  | cons u us ih =>
    simp only [List.foldl_cons, resolveSymbolStep, Option.none_orElse]
    rw [h u (by simp)]
    rw [if_neg (by simp)]
    exact ih fun u hu => h u (by simp [hu])

/-- C3: after reconciliation the resolved symbol is the first match in
precedence order — the HGNC registry symbol when defined (symbol_source
"hgnc"), otherwise the gene's symbol from the configured gencode versions
taken in their configured ascending order, at the first version where it is
defined (symbol_source "gencode (vX)") — and nothing resolves when no source
defines a symbol. -/
theorem resolve_symbol_spec (gs : String → Option String) (versions : List String) :
    (∀ t, resolveSymbol (some t) gs versions =
      { symbol := some t, symbol_source := some "hgnc" }) ∧
    (∀ pre v post s, versions = pre ++ v :: post → (∀ u ∈ pre, gs u = none) →
      gs v = some s →
      resolveSymbol none gs versions =
        { symbol := some s, symbol_source := some ("gencode (v" ++ v ++ ")") }) ∧
    ((∀ u ∈ versions, gs u = none) →
      resolveSymbol none gs versions = { symbol := none, symbol_source := none }) := by
  refine ⟨?_, ?_, ?_⟩
  · intro t
    unfold resolveSymbol
    simp only [Option.isSome_some, if_true]
    exact resolveSymbol_foldl_some gs versions t (some "hgnc")
  · intro pre v post s hver hpre hv
    unfold resolveSymbol
    simp only [Option.isSome_none, Bool.false_eq_true, if_false]
    rw [hver, List.foldl_append]
    rw [resolveSymbol_foldl_none gs pre hpre]
    simp only [List.foldl_cons, resolveSymbolStep, Option.none_orElse]
    rw [hv]
    rw [if_pos (by simp)]
    exact resolveSymbol_foldl_some gs post s _
  · intro hall
    unfold resolveSymbol
    simp only [Option.isSome_none, Bool.false_eq_true, if_false]
    exact resolveSymbol_foldl_none gs versions hall

/-- Witness for C3, the spec's scenario: no registry entry, v19 symbol absent,
v29 symbol "BAZ" — resolved symbol "BAZ" from source v29. -/
theorem resolve_symbol_spec_witness :
    resolveSymbol none (fun v => if v = "29" then some "BAZ" else none) ["19", "29"] =
      { symbol := some "BAZ", symbol_source := some ("gencode (v" ++ "29" ++ ")") } :=
  (resolve_symbol_spec (fun v => if v = "29" then some "BAZ" else none) ["19", "29"]).2.1
    ["19"] "29" [] "BAZ" rfl (by intro u hu; simp at hu; subst hu; decide) (by decide)

/-- A key is absent from a keyed table exactly when no row carries it. -/
lemma lookupKey_eq_none {γ : Type} (rows : List (String × γ)) (k : String) :
    lookupKey rows k = none ↔ ∀ v, (k, v) ∉ rows := by
  unfold lookupKey
  rw [Option.map_eq_none', List.find?_eq_none]
  constructor
  · intro h v hv
    have := h _ hv
    simp at this
  · intro h x hx
    simp only [decide_eq_true_eq]
    intro hk
    exact h x.2 (by rw [← hk]; exact hx)

/-- A key is present in a keyed table exactly when some row carries it. -/
lemma lookupKey_isSome_iff {γ : Type} (rows : List (String × γ)) (k : String) :
    (lookupKey rows k).isSome = true ↔ ∃ v, (k, v) ∈ rows := by
  unfold lookupKey
  rw [Option.isSome_map', List.find?_isSome]
  constructor
  · rintro ⟨x, hx, hk⟩
    simp only [decide_eq_true_eq] at hk
    exact ⟨x.2, by rw [← hk]; exact hx⟩
  · rintro ⟨v, hv⟩
    exact ⟨(k, v), hv, by simp⟩

/-- A successful lookup returns a row of the table. -/
lemma mem_of_lookupKey_eq_some {γ : Type} (rows : List (String × γ)) (k : String) (v : γ)
    (h : lookupKey rows k = some v) : (k, v) ∈ rows := by
  unfold lookupKey at h
  rw [Option.map_eq_some'] at h
  obtain ⟨x, hfind, hx2⟩ := h
  have hk := List.find?_some hfind
  simp only [decide_eq_true_eq] at hk
  have hmem := List.mem_of_find?_eq_some hfind
  rw [← hk, ← hx2]
  exact hmem

/-- In a table with no duplicate keys, lookup finds the row's value. -/
lemma lookupKey_eq_some_of_mem_nodup {γ : Type} (rows : List (String × γ)) (k : String)
    (v : γ) (hnd : (rows.map Prod.fst).Nodup) (hv : (k, v) ∈ rows) :
    lookupKey rows k = some v := by
  induction rows with
  | nil => simp at hv
  | cons r rs ih =>
    rw [List.map_cons, List.nodup_cons] at hnd
    rcases List.mem_cons.mp hv with hv | hv
    · unfold lookupKey
      rw [List.find?_cons_of_pos _ (by rw [← hv]; simp)]
      rw [← hv]
      rfl
    · have hne : ¬ r.1 = k := by
        intro hk
        exact hnd.1 (by rw [hk]; exact List.mem_map.mpr ⟨(k, v), hv, rfl⟩)
      unfold lookupKey
      rw [List.find?_cons_of_neg _ (by simpa using hne)]
      exact ih hnd.2 hv

/-- Unfolding the join loop at its last configured version. -/
lemma multiOuterJoin_snoc {γ : Type} (acc : List (String × List (Option γ))) (n : Nat)
    (ts : List (List (String × γ))) (t : List (String × γ)) :
    multiOuterJoin acc n (ts ++ [t]) =
      outerJoinStep (n + ts.length) (multiOuterJoin acc n ts) t := by
  induction ts generalizing acc n with
  | nil => simp [multiOuterJoin]
  | cons u us ih =>
    simp only [List.cons_append, multiOuterJoin, List.length_cons, List.append_eq]
    rw [ih]
    congr 1
    omega

/-- C7: the multi-version reconciliation is a true outer join keyed by
gene_id.  When every configured version table has no duplicate keys, the
joined table has no duplicate keys, a gene_id appears in it exactly when it
appears in at least one version, and its row nests one sub-record slot per
configured version — the version's record where the gene is present and null
(`none`) where it is absent. -/
theorem outer_join_spec {γ : Type} (tables : List (List (String × γ)))
    (h : ∀ t ∈ tables, (t.map Prod.fst).Nodup) :
    ((outerJoinAll tables).map Prod.fst).Nodup ∧
    (∀ k vs, (k, vs) ∈ outerJoinAll tables →
      vs = tables.map (fun t => lookupKey t k)) ∧
    (∀ k, (∃ vs, (k, vs) ∈ outerJoinAll tables) ↔
      ∃ t ∈ tables, (lookupKey t k).isSome = true) := by
  induction tables using List.reverseRecOn with
  | nil =>
    refine ⟨by simp [outerJoinAll, multiOuterJoin], ?_, ?_⟩
    · intro k vs hk
      simp [outerJoinAll, multiOuterJoin] at hk
    · intro k
      simp [outerJoinAll, multiOuterJoin]
  | append_singleton ts t ih =>
    have hts : ∀ u ∈ ts, (u.map Prod.fst).Nodup := fun u hu => h u (by simp [hu])
    have hT : (t.map Prod.fst).Nodup := h t (by simp)
    obtain ⟨ihnd, ihval, ihmem⟩ := ih hts
    have hout : outerJoinAll (ts ++ [t]) =
        outerJoinStep ts.length (outerJoinAll ts) t := by
      unfold outerJoinAll
      rw [multiOuterJoin_snoc]
      rw [Nat.zero_add]
    have hfst1 : (Prod.fst ∘ fun r : String × List (Option γ) =>
        (r.1, r.2 ++ [lookupKey t r.1])) = Prod.fst := funext fun r => rfl
    have hfst2 : (Prod.fst ∘ fun r : String × γ =>
        (r.1, List.replicate ts.length (none : Option γ) ++ [some r.2])) = Prod.fst :=
      funext fun r => rfl
    refine ⟨?_, ?_, ?_⟩
    · rw [hout]
      unfold outerJoinStep
      rw [List.map_append, List.map_map, List.map_map, hfst1, hfst2]
      apply List.Nodup.append ihnd
      · exact List.Nodup.sublist (List.Sublist.map Prod.fst (List.filter_sublist t)) hT
      · intro k hk1 hk2
        obtain ⟨r, hr, hrk⟩ := List.mem_map.mp hk1
        obtain ⟨r2, hr2, hrk2⟩ := List.mem_map.mp hk2
        have hp := (List.mem_filter.mp hr2).2
        simp only [Option.isNone_iff_eq_none, decide_eq_true_eq] at hp
        rw [lookupKey_eq_none] at hp
        exact hp r.2 (by rw [hrk2, ← hrk]; exact hr)
    · intro k vs hk
      rw [hout] at hk
      unfold outerJoinStep at hk
      rw [List.mem_append] at hk
      rw [List.map_append, List.map_singleton]
      rcases hk with hk | hk
      · obtain ⟨r, hr, heq⟩ := List.mem_map.mp hk
        have hk1 : r.1 = k := congrArg Prod.fst heq
        have hkv : r.2 ++ [lookupKey t r.1] = vs := congrArg Prod.snd heq
        have hval := ihval k r.2 (by rw [← hk1]; exact hr)
        rw [← hkv, hval, hk1]
      · obtain ⟨r, hrf, heq⟩ := List.mem_map.mp hk
        obtain ⟨hrt, hp⟩ := List.mem_filter.mp hrf
        have hk1 : r.1 = k := congrArg Prod.fst heq
        have hkv : List.replicate ts.length (none : Option γ) ++ [some r.2] = vs :=
          congrArg Prod.snd heq
        simp only [Option.isNone_iff_eq_none, decide_eq_true_eq] at hp
        have hnone : ∀ u ∈ ts, lookupKey u k = none := by
          intro u hu
          by_contra hne
          have hsome : (lookupKey u k).isSome = true := by
            cases hl : lookupKey u k with
            | none => exact absurd hl hne
            | some w => rfl
          obtain ⟨vs0, hvs0⟩ := (ihmem k).mpr ⟨u, hu, hsome⟩
          rw [hk1] at hp
          rw [lookupKey_eq_none] at hp
          exact hp vs0 hvs0
        have hrep : List.map (fun t => lookupKey t k) ts =
            List.replicate ts.length (none : Option γ) := by
          rw [List.eq_replicate_iff]
          refine ⟨by simp, ?_⟩
          intro b hb
          obtain ⟨u, hu, hub⟩ := List.mem_map.mp hb
          rw [← hub]
          exact hnone u hu
        have hlook : lookupKey t k = some r.2 :=
          lookupKey_eq_some_of_mem_nodup t k r.2 hT (by rw [← hk1]; exact hrt)
        rw [← hkv, hrep, hlook]
    · intro k
      rw [hout]
      constructor
      · rintro ⟨vs, hvs⟩
        unfold outerJoinStep at hvs
        rw [List.mem_append] at hvs
        rcases hvs with hv | hv
        · obtain ⟨r, hr, heq⟩ := List.mem_map.mp hv
          have hk1 : r.1 = k := congrArg Prod.fst heq
          obtain ⟨u, hu, hus⟩ := (ihmem k).mp ⟨r.2, by rw [← hk1]; exact hr⟩
          exact ⟨u, by simp [hu], hus⟩
        · obtain ⟨r, hrf, heq⟩ := List.mem_map.mp hv
          have hrt := (List.mem_filter.mp hrf).1
          have hk1 : r.1 = k := congrArg Prod.fst heq
          refine ⟨t, by simp, ?_⟩
          rw [lookupKey_isSome_iff]
          exact ⟨r.2, by rw [← hk1]; exact hrt⟩
      · rintro ⟨u, hu, hus⟩
        rw [List.mem_append] at hu
        rcases hu with hu | hu
        · obtain ⟨vs, hvs⟩ := (ihmem k).mpr ⟨u, hu, hus⟩
          refine ⟨vs ++ [lookupKey t k], ?_⟩
          unfold outerJoinStep
          rw [List.mem_append]
          left
          exact List.mem_map.mpr ⟨(k, vs), hvs, rfl⟩
        · simp only [List.mem_singleton] at hu
          subst hu
          obtain ⟨v, hv⟩ := Option.isSome_iff_exists.mp hus
          by_cases hJ : ∃ vs, (k, vs) ∈ outerJoinAll ts
          · obtain ⟨vs, hvs⟩ := hJ
            refine ⟨vs ++ [lookupKey u k], ?_⟩
            unfold outerJoinStep
            rw [List.mem_append]
            left
            exact List.mem_map.mpr ⟨(k, vs), hvs, rfl⟩
          · have hnone : lookupKey (outerJoinAll ts) k = none := by
              rw [lookupKey_eq_none]
              intro w hw
              exact hJ ⟨w, hw⟩
            have hmem_t : (k, v) ∈ u := mem_of_lookupKey_eq_some u k v hv
            refine ⟨List.replicate ts.length none ++ [some v], ?_⟩
            unfold outerJoinStep
            rw [List.mem_append]
            right
            refine List.mem_map.mpr ⟨(k, v), ?_, rfl⟩
            rw [List.mem_filter]
            exact ⟨hmem_t, by simp [hnone]⟩

/-- Witness for C7: two versions, gene G1 in both, gene G2 only in the
second; G2 appears with key-unique output and its presence witnessed in the
second version. -/
theorem outer_join_spec_witness :
    ((outerJoinAll [[("G1", (1 : Nat))], [("G1", 10), ("G2", 20)]]).map Prod.fst).Nodup ∧
    (("G2", [none, some 20]) ∈ outerJoinAll [[("G1", (1 : Nat))], [("G1", 10), ("G2", 20)]] →
      [none, some 20] =
        [[("G1", (1 : Nat))], [("G1", 10), ("G2", 20)]].map (fun t => lookupKey t "G2")) :=
  ⟨(outer_join_spec [[("G1", (1 : Nat))], [("G1", 10), ("G2", 20)]] (by decide)).1,
   (outer_join_spec [[("G1", (1 : Nat))], [("G1", 10), ("G2", 20)]] (by decide)).2.1
     "G2" [none, some 20]⟩

/-- A missing operand on the left nullifies an extend. -/
lemma strictExtend_none_left (o : Option (List String)) : strictExtend none o = none := by
  cases o <;> rfl

/-- A missing operand on the right nullifies an extend. -/
lemma strictExtend_none_right (o : Option (List String)) : strictExtend o none = none := by
  cases o <;> rfl

/-- A missing term array stays missing through the whole per-version loop. -/
lemma foldl_appendDefined_none (vsyms : List (Option String)) :
    vsyms.foldl appendDefined none = none := by
  induction vsyms with
  | nil => rfl
  | cons s? ss ih =>
    cases s? with
    | none => simpa [appendDefined] using ih
    | some s => simpa [appendDefined, strictAppend] using ih

/-- A defined term array accumulates exactly the defined version symbols, in
order. -/
lemma foldl_appendDefined_some (vsyms : List (Option String)) (init : List String) :
    vsyms.foldl appendDefined (some init) = some (init ++ vsyms.filterMap id) := by
  induction vsyms generalizing init with
  | nil => simp
  | cons s? ss ih =>
    cases s? with
    | none => simp [appendDefined, ih]
    | some s => simp [appendDefined, strictAppend, ih]

/-- C8 counterexample: a gene whose symbol resolved from a source version but
which has no registry row (both registry fields missing), and a gene with a
defined previous-symbols field but an empty — hence missing, under
`import_table(missing="")` — alias field.  In both cases the strict
missingness of append/extend makes search_terms null: not a set, and not the
claimed union. -/
theorem search_terms_claim_cex :
    search_terms (some "BAZ") none none [some "BAZ"] = none ∧
    search_terms (some "FOO") (some "AA, BB") none [] = none := by
  constructor
  · rfl
  · rfl

/-- C8 (amended): for a gene holding a registry row with defined previous-
and alias-symbols fields and a defined resolved symbol, search_terms is a
deduplicated set of uppercase strings, the uppercase-normalized union of the
resolved symbol, the comma-split whitespace-trimmed registry previous/alias
symbols, and every defined per-version source symbol.  search_terms is not
always a set, however: whenever the resolved symbol is missing, or the gene
has no registry row, or a previous/alias field is missing (how an empty
registry field arrives, under missing=""), the strict missingness of
append/extend nullifies search_terms entirely — an empty field nullifies the
set rather than contributing nothing. -/
theorem search_terms_amended (symbol prevRaw aliasRaw : String)
    (vsyms : List (Option String)) :
    (search_terms (some symbol) (some prevRaw) (some aliasRaw) vsyms =
      some ({symbol.toUpper}
        ∪ ((splitFieldParts prevRaw).map String.toUpper).toFinset
        ∪ ((splitFieldParts aliasRaw).map String.toUpper).toFinset
        ∪ ((vsyms.filterMap id).map String.toUpper).toFinset)) ∧
    (∀ sym? prev? alias? : Option String,
      sym? = none ∨ prev? = none ∨ alias? = none →
      search_terms sym? prev? alias? vsyms = none) := by
  constructor
  · unfold search_terms
    rw [show strictExtend
          (strictExtend (strictAppend (some []) (some symbol))
            (splitField (some prevRaw)))
          (splitField (some aliasRaw)) =
        some ((([] ++ [symbol]) ++ splitFieldParts prevRaw) ++ splitFieldParts aliasRaw)
      from rfl]
    rw [foldl_appendDefined_some, Option.map_some']
    rw [Option.some_inj]
    ext x
    constructor
    · intro hx
      simp only [List.mem_toFinset, List.mem_map] at hx
      obtain ⟨s, hs, hx⟩ := hx
      subst hx
      simp only [List.nil_append, List.mem_append, List.mem_singleton] at hs
      simp only [Finset.mem_union, Finset.mem_singleton, List.mem_toFinset, List.mem_map]
      rcases hs with ((rfl | hs) | hs) | hs
      · exact Or.inl (Or.inl (Or.inl rfl))
      · exact Or.inl (Or.inl (Or.inr ⟨s, hs, rfl⟩))
      · exact Or.inl (Or.inr ⟨s, hs, rfl⟩)
      · exact Or.inr ⟨s, hs, rfl⟩
    · intro hx
      simp only [Finset.mem_union, Finset.mem_singleton, List.mem_toFinset,
        List.mem_map] at hx
      simp only [List.mem_toFinset, List.mem_map, List.nil_append, List.mem_append,
        List.mem_singleton]
      rcases hx with (((rfl | ⟨s, hs, rfl⟩) | ⟨s, hs, rfl⟩) | ⟨s, hs, rfl⟩)
      · exact ⟨symbol, Or.inl (Or.inl (Or.inl rfl)), rfl⟩
      · exact ⟨s, Or.inl (Or.inl (Or.inr hs)), rfl⟩
      · exact ⟨s, Or.inl (Or.inr hs), rfl⟩
      · exact ⟨s, Or.inr hs, rfl⟩
  · rintro sym? prev? alias? (rfl | rfl | rfl)
    · unfold search_terms
      rw [show strictAppend (some []) none = none from rfl,
        strictExtend_none_left, strictExtend_none_left, foldl_appendDefined_none]
      rfl
    · unfold search_terms
      rw [show splitField none = (none : Option (List String)) from rfl,
        strictExtend_none_right, strictExtend_none_left, foldl_appendDefined_none]
      rfl
    · unfold search_terms
      rw [show splitField none = (none : Option (List String)) from rfl,
        strictExtend_none_right, foldl_appendDefined_none]
      rfl

/-- Witness for the amended C8: a missing previous-symbols registry field
nullifies search_terms even with a defined symbol, a defined alias field and
a defined version symbol. -/
theorem search_terms_amended_witness :
    search_terms (some "Foo") none (some "CC") [some "BAZ"] = none :=
  (search_terms_amended "x" "x" "x" [some "BAZ"]).2
    (some "Foo") none (some "CC") (Or.inr (Or.inl rfl))

/-- C9: the curated cross-reference pass uses the lookup only for versions
with `int(version) >= 20`.  A v19 transcript gets null refseq fields
regardless of the lookup's contents; a v29 transcript is annotated from the
(accession, version) two-level lookup, getting the found refseq identifiers,
and null fields — never an error — when either lookup level misses. -/
theorem xref_annot_spec (m : EnsemblMap) (t : Transcript) :
    (annotateTranscriptXref "19" m t =
      { base := t, refseq_id := none, refseq_version := none }) ∧
    (∀ inner r, lookupKey m t.transcript_id = some inner →
      lookupKey inner t.transcript_version = some r →
      annotateTranscriptXref "29" m t =
        { base := t, refseq_id := some r.refseq_id,
          refseq_version := some r.refseq_version }) ∧
    (lookupKey m t.transcript_id = none →
      annotateTranscriptXref "29" m t =
        { base := t, refseq_id := none, refseq_version := none }) ∧
    (∀ inner, lookupKey m t.transcript_id = some inner →
      lookupKey inner t.transcript_version = none →
      annotateTranscriptXref "29" m t =
        { base := t, refseq_id := none, refseq_version := none }) := by
  have h19 : supportsRefseqXref "19" = false := by decide
  have h29 : supportsRefseqXref "29" = true := by decide
  refine ⟨?_, ?_, ?_, ?_⟩
  · unfold annotateTranscriptXref
    rw [h19]
    rfl
  · intro inner r hm hi
    unfold annotateTranscriptXref
    rw [h29]
    simp only [if_true, getRefseqFields, hm, getVersionFields, hi]
  · intro hm
    unfold annotateTranscriptXref
    rw [h29]
    simp only [if_true, getRefseqFields, hm]
  · intro inner hm hi
    unfold annotateTranscriptXref
    rw [h29]
    simp only [if_true, getRefseqFields, hm, getVersionFields, hi]

/-- Witness for C9: with a one-entry lookup, the matching v29 transcript gets
populated refseq fields, a non-matching v29 transcript gets null fields, and
a v19 transcript gets null fields though its accession is in the lookup. -/
theorem xref_annot_spec_witness :
    annotateTranscriptXref "29" sampleEnsemblMap sampleTranscriptHit =
      { base := sampleTranscriptHit, refseq_id := some "NM_1",
        refseq_version := some "2" } ∧
    annotateTranscriptXref "29" sampleEnsemblMap sampleTranscriptMiss =
      { base := sampleTranscriptMiss, refseq_id := none, refseq_version := none } ∧
    annotateTranscriptXref "19" sampleEnsemblMap sampleTranscriptHit =
      { base := sampleTranscriptHit, refseq_id := none, refseq_version := none } :=
  ⟨(xref_annot_spec sampleEnsemblMap sampleTranscriptHit).2.1
      [("1", { refseq_id := "NM_1", refseq_version := "2" })]
      { refseq_id := "NM_1", refseq_version := "2" } (by decide) (by decide),
   (xref_annot_spec sampleEnsemblMap sampleTranscriptMiss).2.2.1 (by decide),
   (xref_annot_spec sampleEnsemblMap sampleTranscriptHit).1⟩

/-- Lookup in a key-preserving value-replacing map pass, away from the
replaced key. -/
lemma lookupKey_map_replace {α : Type} (ps : List (String × α)) (k : String) (v : α)
    (k2 : String) (hne : k2 ≠ k) :
    lookupKey (ps.map (fun p => if p.1 = k then (k, v) else p)) k2 = lookupKey ps k2 := by
  induction ps with
  | nil => rfl
  | cons q qs ih =>
    rw [List.map_cons]
    by_cases hq : q.1 = k
    · rw [if_pos hq]
      unfold lookupKey
      rw [List.find?_cons_of_neg _ (by simp; intro h; exact hne h.symm),
        List.find?_cons_of_neg _ (by simp [hq]; intro h; exact hne h.symm)]
      exact ih
    · rw [if_neg hq]
      by_cases hq2 : q.1 = k2
      · unfold lookupKey
        rw [List.find?_cons_of_pos _ (by simp [hq2]),
          List.find?_cons_of_pos _ (by simp [hq2])]
      · unfold lookupKey
        rw [List.find?_cons_of_neg _ (by simp [hq2]),
          List.find?_cons_of_neg _ (by simp [hq2])]
        exact ih

/-- Lookup at the replaced key finds the replacement, provided the key was
present. -/
lemma lookupKey_map_replace_hit {α : Type} (ps : List (String × α)) (k : String) (v : α)
    (hmem : (ps.find? (fun p => p.1 = k)).isSome = true) :
    lookupKey (ps.map (fun p => if p.1 = k then (k, v) else p)) k = some v := by
  induction ps with
  | nil => simp at hmem
  | cons q qs ih =>
    rw [List.map_cons]
    by_cases hq : q.1 = k
    · rw [if_pos hq]
      unfold lookupKey
      rw [List.find?_cons_of_pos _ (by simp)]
      rfl
    · rw [if_neg hq]
      unfold lookupKey
      rw [List.find?_cons_of_neg _ (by simp [hq])]
      apply ih
      rw [List.find?_cons_of_neg _ (by simp [hq])] at hmem
      exact hmem

/-- Lookup distributes over appended tables, preferring the left one. -/
lemma lookupKey_append {α : Type} (m rest : List (String × α)) (k2 : String) :
    lookupKey (m ++ rest) k2 =
      (lookupKey m k2).orElse (fun _ => lookupKey rest k2) := by
  induction m with
  | nil => rfl
  | cons q qs ih =>
    rw [List.cons_append]
    by_cases hq : q.1 = k2
    · unfold lookupKey
      rw [List.find?_cons_of_pos _ (by simp [hq]),
        List.find?_cons_of_pos _ (by simp [hq])]
      rfl
    · unfold lookupKey
      rw [List.find?_cons_of_neg _ (by simp [hq]),
        List.find?_cons_of_neg _ (by simp [hq])]
      exact ih

/-- Python dict assignment in lookup terms: the assigned key now maps to the
new value, every other key is untouched. -/
lemma lookupKey_dictInsert {α : Type} (m : List (String × α)) (k : String) (v : α)
    (k2 : String) :
    lookupKey (dictInsert m k v) k2 = if k2 = k then some v else lookupKey m k2 := by
  unfold dictInsert
  by_cases hmem : (m.find? (fun p => p.1 = k)).isSome = true
  · rw [if_pos hmem]
    by_cases hk : k2 = k
    · subst hk
      rw [if_pos rfl]
      exact lookupKey_map_replace_hit m k2 v hmem
    · rw [if_neg hk]
      exact lookupKey_map_replace m k v k2 hk
  · rw [if_neg hmem]
    have hnone : lookupKey m k = none := by
      unfold lookupKey
      rw [Option.not_isSome_iff_eq_none.mp hmem]
      rfl
    rw [lookupKey_append]
    by_cases hk : k2 = k
    · subst hk
      rw [if_pos rfl, hnone]
      unfold lookupKey
      rw [List.find?_cons_of_pos _ (by simp)]
      rfl
    · rw [if_neg hk]
      have hsingle : lookupKey [(k, v)] k2 = none := by
        unfold lookupKey
        rw [List.find?_cons_of_neg _ (by simp; intro h; exact hk h.symm)]
        rfl
      rw [hsingle]
      cases lookupKey m k2 <;> rfl

/-- C10: in the two-level curated cross-reference lookup, a repeated ensembl
accession wholly replaces the earlier entry: the finished lookup maps each
accession to the one-version inner map built from the last input row with
that accession (and to nothing when no row has it), so versions from earlier
rows are unreachable. -/
theorem ensembl_map_last_wins (rows : List ManeRow) (acc : String) :
    lookupKey (buildEnsemblToRefseqMap rows) acc =
      (rows.reverse.find? (fun r => r.ensembl_id = acc)).map
        (fun r => [(r.ensembl_version,
          { refseq_id := r.refseq_id, refseq_version := r.refseq_version })]) := by
  induction rows using List.reverseRecOn with
  | nil => rfl
  | append_singleton rs r ih =>
    have hbuild : buildEnsemblToRefseqMap (rs ++ [r]) =
        dictInsert (buildEnsemblToRefseqMap rs) r.ensembl_id
          [(r.ensembl_version,
            { refseq_id := r.refseq_id, refseq_version := r.refseq_version })] := by
      unfold buildEnsemblToRefseqMap
      rw [List.foldl_append]
      rfl
    rw [hbuild, lookupKey_dictInsert, List.reverse_append]
    simp only [List.reverse_singleton, List.singleton_append]
    by_cases hk : acc = r.ensembl_id
    · rw [if_pos hk]
      rw [List.find?_cons_of_pos _ (by simp [hk])]
      rfl
    · rw [if_neg hk]
      rw [List.find?_cons_of_neg _ (by simp; intro h; exact hk h.symm)]
      exact ih

end GeneModels
